import Mathlib

/-!
Shallow embedding of the archive-container command layer of the
hdk-cli repository (src/magic.rs, src/commands/common.rs,
src/commands/sharc.rs, src/commands/bar.rs, src/commands/sdat.rs).

Byte buffers are modelled as `List Nat` (each element one byte value),
32-bit machine integers as `Int` with explicit two's-complement
reduction, and fallible Rust code as `Except`/`Outcome` values where
`Outcome.panicked` records a Rust `panic!`/`expect`/out-of-bounds
abort, which is distinct from returning an error value.  External
collaborator crates (the AfsHash function, the binrw archive parsers,
the per-entry codec) are kept abstract: the definitions below take
them as explicit function arguments, exactly at the boundary where
the command code calls into them.
-/

namespace Hdk

/-- Byte order resolved from the archive magic (hdk_archive::structs::Endianness). -/
inductive Endianness
  | little
  | big
  deriving DecidableEq, Repr

/-- Result of `magic_to_endianess` in src/magic.rs: the Rust function either
returns an `Endianness` or executes `panic!("Invalid magic value")`. -/
inductive MagicResult
  | resolved (e : Endianness)
  | panicked (msg : String)
  deriving DecidableEq, Repr

/-- Embedding of `magic_to_endianess` (src/magic.rs lines 8-14): the byte
pattern E1 17 EF AD resolves to little-endian, AD EF 17 E1 to big-endian,
and any other buffer hits the `panic!` arm. -/
def magic_to_endianess (buf : List Nat) : MagicResult :=
  if buf = [0xE1, 0x17, 0xEF, 0xAD] then MagicResult.resolved Endianness.little
  else if buf = [0xAD, 0xEF, 0x17, 0xE1] then MagicResult.resolved Endianness.big
  else MagicResult.panicked "Invalid magic value"

/-- Result of running a whole command path: normal value, returned error
string, or a Rust panic (fatal abort, not a returned error). -/
inductive Outcome (α : Type)
  | ok (a : α)
  | error (msg : String)
  | panicked (msg : String)
  deriving DecidableEq, Repr

/-- Whether an `Outcome` is a returned error value (not a panic). -/
def Outcome.is_error {α : Type} : Outcome α → Bool
  | Outcome.error _ => true
  | _ => false

/-- Lift the result of an external archive parser into an `Outcome`,
prefixing the error message the way the command code's `map_err` does. -/
def lift_parse {α : Type} (pre : String) : Except String α → Outcome α
  | Except.ok a => Outcome.ok a
  | Except.error m => Outcome.error (pre ++ m)

/-- Embedding of the header phase of `Sharc::extract` (src/commands/sharc.rs
lines 177-195): `magic.clone_from_slice(&data[0..4])` panics when the input
holds fewer than 4 bytes; otherwise the magic is resolved (panicking on an
unrecognized pattern) and the archive is parsed with `read_le_args` or
`read_be_args` according to the resolved byte order.  The external binrw
parser is abstracted as `parse`. -/
def sharc_extract_open {α : Type} (parse : Endianness → Except String α)
    (data : List Nat) : Outcome α :=
  if data.length < 4 then Outcome.panicked "range end index 4 out of range"
  else
    match magic_to_endianess (data.take 4) with
    | MagicResult.panicked m => Outcome.panicked m
    | MagicResult.resolved e => lift_parse "failed to read SHARC archive: " (parse e)

/-- Embedding of the header phase of `Bar::extract` (src/commands/bar.rs
lines 106-130): `data.get(0..4).ok_or_else(...)` turns a short input into a
returned error; then the magic is resolved (panicking on an unrecognized
pattern) and the archive parsed with the resolved byte order. -/
def bar_extract_open {α : Type} (parse : Endianness → Except String α)
    (data : List Nat) : Outcome α :=
  if data.length < 4 then Outcome.error "File too small to be a valid archive"
  else
    match magic_to_endianess (data.take 4) with
    | MagicResult.panicked m => Outcome.panicked m
    | MagicResult.resolved e => lift_parse "failed to open BAR archive: " (parse e)

/-- Whether a character is an ASCII hex digit, as `char::is_ascii_hexdigit`
checks it in `collect_input_files` (src/commands/common.rs). -/
def is_hex_digit (c : Char) : Bool :=
  (decide ('0' ≤ c) && decide (c ≤ '9'))
    || (decide ('a' ≤ c) && decide (c ≤ 'f'))
    || (decide ('A' ≤ c) && decide (c ≤ 'F'))

/-- Numeric value of an ASCII hex digit (behaviour of `hex::decode` on one digit). -/
def hex_digit_val (c : Char) : Nat :=
  if decide ('0' ≤ c) && decide (c ≤ '9') then c.toNat - 48
  else if decide ('a' ≤ c) && decide (c ≤ 'f') then c.toNat - 87
  else c.toNat - 55

/-- Embedding of `hex::decode` on an even-length all-hex string (the only way
`collect_input_files` calls it, behind its length-8 and all-hex-digit guard):
each digit pair becomes one byte. -/
def hex_decode_bytes : List Char → List Nat
  | a :: b :: rest => (16 * hex_digit_val a + hex_digit_val b) :: hex_decode_bytes rest
  | _ => []

/-- Embedding of `u32::from_be_bytes` composed over a byte list (most
significant byte first). -/
def u32_from_be_bytes (bs : List Nat) : Nat :=
  bs.foldl (fun acc b => 256 * acc + b) 0

/-- Reinterpret a 32-bit unsigned value as signed (`i32::from_be_bytes` result,
two's complement). -/
def to_signed_32 (n : Nat) : Int :=
  if n < 2147483648 then (n : Int) else (n : Int) - 4294967296

/-- Embedding of the path normalization in `collect_input_files`
(src/commands/common.rs line 127): `raw.to_lowercase().replace("\\", "/")`,
lowercasing first and then turning every backslash into a forward slash. -/
def clean_path (name : List Char) : List Char :=
  (name.map Char.toLower).map (fun c => if c = '\\' then '/' else c)

/-- Embedding of the name-hash computation in `collect_input_files`
(src/commands/common.rs lines 116-129): a relative file name that is exactly
8 ASCII hex digits is decoded by `hex::decode` and read with
`i32::from_be_bytes`, bypassing the hash; any other name is lowercased,
backslash-normalized and fed to the external `AfsHash::new_from_str`,
abstracted here as `afs_hash`. -/
def collect_name_hash (afs_hash : List Char → Int) (name : List Char) : Int :=
  if name.length = 8 ∧ name.all is_hex_digit then
    to_signed_32 (u32_from_be_bytes (hex_decode_bytes name))
  else
    afs_hash (clean_path name)

/-- Value of an all-hex-digit token read as one big-endian number.  This is
the specification-side reading of the 8-hex-digit literal ("parsed as a
big-endian 32-bit value"), to be compared with the code's byte-pair decode. -/
def hex_string_val (s : List Char) : Nat :=
  s.foldl (fun acc c => 16 * acc + hex_digit_val c) 0

/-- Specification-side normalization in one pass: lowercase each character
and convert backslashes to forward slashes. -/
def spec_normalize (name : List Char) : List Char :=
  name.map (fun c => if Char.toLower c = '\\' then '/' else Char.toLower c)

/-- Embedding of `i32::to_be_bytes` on a signed 32-bit value held as `Int`. -/
def i32_to_be_bytes (t : Int) : List Nat :=
  let n := (t % 4294967296).toNat
  [n / 16777216 % 256, n / 65536 % 256, n / 256 % 256, n % 256]

/-- Little-endian serialization of a signed 32-bit value: the byte order a
little-endian archive uses for its own header fields, given here as the
specification-side encoding that a marker "consistent with the archive's own
byte order" would use for a little-endian archive. -/
def i32_to_le_bytes (t : Int) : List Nat :=
  let n := (t % 4294967296).toNat
  [n % 256, n / 256 % 256, n / 65536 % 256, n / 16777216 % 256]

/-- Embedding of the `.time` marker write during extraction
(src/commands/sharc.rs line 240, src/commands/bar.rs line 148): the code
always writes `timestamp.to_be_bytes()` regardless of the archive's byte
order ("Always write the timestamp in big-endian for consistency"). -/
def write_time_marker (timestamp : Int) : List Nat :=
  i32_to_be_bytes timestamp

/-- Embedding of the `.time` marker read during creation
(src/commands/sharc.rs lines 54-67, src/commands/bar.rs lines 49-69): a
4-byte marker is read with `i32::from_be_bytes`; any other length keeps the
default timestamp. -/
def read_time_marker (bytes : List Nat) (default_ts : Int) : Int :=
  if bytes.length = 4 then to_signed_32 (u32_from_be_bytes bytes) else default_ts

/-- Byte order `Bar::create` serializes archives with
(src/commands/bar.rs line 91: `Endian::Little`). -/
def bar_create_endian : Endianness := Endianness.little

/-- One collected input file, the `(abs_path, rel_path, name_hash)` tuple
produced by `collect_input_files` restricted to the fields the create
pipeline observes after collection (the file's bytes are read inside the
encode stage, which is abstracted as a function of the whole record). -/
structure SrcFile where
  rel_path : String
  name_hash : Int
  deriving DecidableEq, Repr

/-- Embedding of `files.sort_by_key(|(_, _, a_hash)| a_hash.0)`
(src/commands/sharc.rs line 73, src/commands/bar.rs line 75,
src/commands/sdat.rs line 153): Rust's `sort_by_key` is a stable ascending
sort on the signed `i32` hash; a stable sort is modelled by insertion sort,
which produces the same list as any stable sort for the same key order. -/
def sort_files_by_hash (files : List SrcFile) : List SrcFile :=
  files.insertionSort (fun a b => a.name_hash ≤ b.name_hash)

/-- One pre-encoded entry handed to the builder, the `CompressedFile` record
of src/commands/mod.rs restricted to the fields `add_compressed_entry`
receives (src/commands/sharc.rs lines 141-148). -/
structure BuilderEntry where
  name_hash : Int
  compressed : List Nat
  uncompressed_size : Nat
  iv : List Nat
  deriving DecidableEq, Repr

/-- Modelled from the spec: `SharcBuilder::add_compressed_entry` lives in the
external hdk_archive crate; the spec describes it as splitting encoding from
insertion and appending the record to the builder's in-memory entry list
("mutated only by add_entry/add_compressed_entry (append ...)"). -/
def add_compressed_entry (entries : List BuilderEntry) (e : BuilderEntry) :
    List BuilderEntry :=
  entries ++ [e]

/-- Embedding of the serial encode-then-insert pipeline of `Sharc::create`
(src/commands/sharc.rs lines 69-149): collected files are sorted by signed
hash, each is encoded (read, compress, encrypt with its IV — abstracted as
`encode`, fixed file contents and IV choices), and the results are appended
to the builder one by one in list order. -/
def create_builder_entries (encode : SrcFile → BuilderEntry)
    (files : List SrcFile) : List BuilderEntry :=
  ((sort_files_by_hash files).map encode).foldl add_compressed_entry []

/-- Embedding of rayon's `par_iter().map(f).collect()` over an input list:
worker tasks complete in an arbitrary order (the `order` list of indices);
each completed task contributes the pair (its index, its result), and
`collect` on an indexed parallel iterator assembles the results by index,
position `i` of the output receiving the result of input `i`.  A slot is
`none` only if no task for that index completed. -/
def par_map_collect {α β : Type} (f : α → β) (xs : List α)
    (order : List Nat) : List (Option β) :=
  let results := order.filterMap (fun i => (xs[i]?).map (fun a => (i, f a)))
  (List.range xs.length).map
    (fun i => (results.find? (fun p => p.1 == i)).map (fun p => p.2))

/-- Embedding of the rayon encode path of `Sharc::create`
(src/commands/sharc.rs lines 104-149): the sorted files are encoded by
parallel workers completing in arbitrary `order`, the collected vector is
assembled by index, and the subsequent serial for-loop appends each element
to the builder in vector order. -/
def create_builder_entries_par (encode : SrcFile → BuilderEntry)
    (files : List SrcFile) (order : List Nat) : List BuilderEntry :=
  ((par_map_collect encode (sort_files_by_hash files) order).filterMap id).foldl
    add_compressed_entry []

/-- Embedding of the per-entry extraction loop of `Bar::extract`
(src/commands/bar.rs lines 132-141): entries are processed in table order;
the first entry whose external `entry_data` call fails aborts the whole loop
with the error message `"failed to read entry data: "` followed by the codec
error; on success every entry's payload is produced.  Entries are identified
by their signed `name_hash`. -/
def bar_extract_entries (entry_data : Int → Except String (List Nat)) :
    List Int → Except String (List (Int × List Nat))
  | [] => Except.ok []
  | h :: rest =>
    match entry_data h with
    | Except.error e => Except.error ("failed to read entry data: " ++ e)
    | Except.ok d =>
      match bar_extract_entries entry_data rest with
      | Except.error e => Except.error e
      | Except.ok l => Except.ok ((h, d) :: l)

/-- Embedding of the per-entry extraction loop of `Sharc::extract`
(src/commands/sharc.rs lines 199-227): each entry's payload is decoded with
`.expect("Failed to process entry")`, so the first failing entry aborts the
whole extraction by Rust panic (message `"Failed to process entry: "`
followed by the codec error), never by a returned error value. -/
def sharc_extract_entries (entry_data : Int → Except String (List Nat)) :
    List Int → Outcome (List (Int × List Nat))
  | [] => Outcome.ok []
  | h :: rest =>
    match entry_data h with
    | Except.error e => Outcome.panicked ("Failed to process entry: " ++ e)
    | Except.ok d =>
      match sharc_extract_entries entry_data rest with
      | Outcome.ok l => Outcome.ok ((h, d) :: l)
      | other => other

/-- Which archive format an SDAT payload was recognized as. -/
inductive ParsedAs (α β : Type)
  | sharc (a : α)
  | bar (b : β)
  deriving DecidableEq, Repr

/-- Embedding of the format-dispatch phase of `Sdat::extract`
(src/commands/sdat.rs lines 274-451): the decrypted payload's first four
bytes are sliced with `[0..4]` (panicking when the payload is shorter), the
magic is resolved (panicking on an unrecognized pattern), the payload is
parsed as SHARC with the resolved byte order, on failure parsed as BAR, and
only when both parsers fail is the unsupported-archive error returned.  The
external binrw parsers are abstracted as `parse_sharc` and `parse_bar`. -/
def sdat_extract_archive {α β : Type} (parse_sharc : Endianness → Except String α)
    (parse_bar : Endianness → Except String β) (payload : List Nat) :
    Outcome (ParsedAs α β) :=
  if payload.length < 4 then Outcome.panicked "range end index 4 out of range"
  else
    match magic_to_endianess (payload.take 4) with
    | MagicResult.panicked m => Outcome.panicked m
    | MagicResult.resolved e =>
      match parse_sharc e with
      | Except.ok a => Outcome.ok (ParsedAs.sharc a)
      | Except.error _ =>
        match parse_bar e with
        | Except.ok b => Outcome.ok (ParsedAs.bar b)
        | Except.error _ =>
          Outcome.error "file does not contain a supported SHARC or BAR archive"

/-- Embedding of per-entry IV generation in the create paths
(src/commands/sharc.rs lines 81-86 and 110-115, src/commands/sdat.rs lines
161-166 and 189-194): the thread RNG is modelled as the stream of 8-byte
draws it produces, and the encode step for the i-th entry fills that entry's
IV with its own fresh draw `rng_draw i`. -/
def create_entry_ivs (rng_draw : Nat → List Nat) (entry_count : Nat) :
    List (List Nat) :=
  (List.range entry_count).map rng_draw

/-- Claim C3: the magic pattern E1 17 EF AD resolves to little-endian, its
exact byte reversal AD EF 17 E1 to big-endian, and SHARC extraction parses
the archive with exactly the byte order resolved from the file's own magic
(the embedding takes no host-platform input, so the result depends only on
the bytes). -/
theorem magic_determines_byte_order {α : Type} (parse : Endianness → Except String α)
    (data : List Nat) :
    magic_to_endianess [0xE1, 0x17, 0xEF, 0xAD] = MagicResult.resolved Endianness.little
    ∧ magic_to_endianess [0xAD, 0xEF, 0x17, 0xE1] = MagicResult.resolved Endianness.big
    ∧ ([0xAD, 0xEF, 0x17, 0xE1] : List Nat) = List.reverse [0xE1, 0x17, 0xEF, 0xAD]
    ∧ (data.take 4 = [0xE1, 0x17, 0xEF, 0xAD] →
        sharc_extract_open parse data
          = lift_parse "failed to read SHARC archive: " (parse Endianness.little))
    ∧ (data.take 4 = [0xAD, 0xEF, 0x17, 0xE1] →
        sharc_extract_open parse data
          = lift_parse "failed to read SHARC archive: " (parse Endianness.big)) := by
  refine ⟨rfl, rfl, rfl, ?_, ?_⟩
  · intro h
    have hlen : ¬ data.length < 4 := by
      have hl := congrArg List.length h
      simp [List.length_take] at hl
      omega
    simp [sharc_extract_open, hlen, h, magic_to_endianess]
  · intro h
    have hlen : ¬ data.length < 4 := by
      have hl := congrArg List.length h
      simp [List.length_take] at hl
      omega
    simp [sharc_extract_open, hlen, h, magic_to_endianess]

/-- Witness for C3: on a little-endian magic the SHARC parser is invoked with
little-endian and its successful result is returned. -/
theorem magic_determines_byte_order_witness :
    sharc_extract_open (fun _ : Endianness => (Except.ok 7 : Except String Nat))
      [0xE1, 0x17, 0xEF, 0xAD] = Outcome.ok 7 :=
  ((magic_determines_byte_order (fun _ : Endianness => (Except.ok 7 : Except String Nat))
      [0xE1, 0x17, 0xEF, 0xAD]).2.2.2.1 rfl).trans rfl

/-- Claim C5 counterexample: on the unrecognized magic 00 00 00 00 the
byte-order resolver executes the Rust `panic!` arm — a crash, not a
recoverable format-detection failure a caller could respond to. -/
theorem magic_invalid_magic_panics_cex :
    magic_to_endianess [0, 0, 0, 0] = MagicResult.panicked "Invalid magic value"
    ∧ Outcome.is_error (sdat_extract_archive
        (fun _ : Endianness => (Except.ok 0 : Except String Nat))
        (fun _ : Endianness => (Except.ok 0 : Except String Nat)) [0, 0, 0, 0]) = false :=
  ⟨rfl, rfl⟩

/-- Claim C5 amended: for every 4-byte value matching neither recognized
pattern, `magic_to_endianess` panics with "Invalid magic value" — a fatal
crash rather than a recoverable error value. -/
theorem magic_invalid_magic_panics (buf : List Nat)
    (h1 : buf ≠ [0xE1, 0x17, 0xEF, 0xAD])
    (h2 : buf ≠ [0xAD, 0xEF, 0x17, 0xE1]) :
    magic_to_endianess buf = MagicResult.panicked "Invalid magic value" := by
  simp [magic_to_endianess, h1, h2]

/-- Witness for the amended C5 at the concrete magic 01 02 03 04. -/
theorem magic_invalid_magic_panics_witness :
    magic_to_endianess [1, 2, 3, 4] = MagicResult.panicked "Invalid magic value" :=
  magic_invalid_magic_panics [1, 2, 3, 4] (by decide) (by decide)

/-- Claim C6: on an input shorter than the 4-byte magic, `Bar::extract`
returns an error value as the claim requires, but `Sharc::extract` panics
out of the out-of-range slice `&data[0..4]`, contradicting the claim that
extraction never panics (evaluated at the empty input; the abstract parser
argument is never reached). -/
theorem short_input_truncation_divergence :
    sharc_extract_open (fun _ : Endianness => (Except.error "x" : Except String Nat)) []
      = Outcome.panicked "range end index 4 out of range"
    ∧ bar_extract_open (fun _ : Endianness => (Except.error "x" : Except String Nat)) []
      = Outcome.error "File too small to be a valid archive" :=
  ⟨rfl, rfl⟩

/-- Claim C9 counterexample: `Bar::create` serializes archives little-endian,
yet extraction writes the `.time` marker for timestamp 1 as the big-endian
bytes 00 00 00 01, not the little-endian (archive-order) bytes 01 00 00 00 —
so the marker's byte order is not "consistent with the archive's own". -/
theorem time_marker_order_cex :
    bar_create_endian = Endianness.little
    ∧ write_time_marker 1 = [0, 0, 0, 1]
    ∧ i32_to_le_bytes 1 = [1, 0, 0, 0]
    ∧ write_time_marker 1 ≠ i32_to_le_bytes 1 := by
  refine ⟨rfl, rfl, rfl, ?_⟩
  decide

/-- Claim C9 amended: the marker holds exactly 4 raw bytes encoding the
timestamp in big-endian regardless of the archive's byte order, and create
reads the marker back as big-endian, so extracting and then repacking
restores the original signed 32-bit timestamp. -/
theorem time_marker_roundtrip (t d : Int)
    (h1 : -2147483648 ≤ t) (h2 : t < 2147483648) :
    (write_time_marker t).length = 4
    ∧ read_time_marker (write_time_marker t) d = t := by
  refine ⟨rfl, ?_⟩
  simp only [read_time_marker, write_time_marker, i32_to_be_bytes,
    u32_from_be_bytes, to_signed_32, List.foldl, List.length_cons,
    List.length_nil]
  norm_num
  omega

/-- Witness for the amended C9 at the concrete timestamp -5. -/
theorem time_marker_roundtrip_witness :
    (write_time_marker (-5)).length = 4
    ∧ read_time_marker (write_time_marker (-5)) 0 = -5 :=
  time_marker_roundtrip (-5) 0 (by decide) (by decide)

/-- Claim C2: the name hash of a collected file is the 8-hex-digit token read
as one big-endian 32-bit value reinterpreted as signed when the relative
name is exactly 8 ASCII hex digits, and otherwise the external AfsHash of
the name lowercased with every backslash turned into a forward slash. -/
theorem collect_name_hash_spec (afs_hash : List Char → Int) (name : List Char) :
    collect_name_hash afs_hash name =
      if name.length = 8 ∧ name.all is_hex_digit then
        to_signed_32 (hex_string_val name)
      else
        afs_hash (spec_normalize name) := by
  unfold collect_name_hash
  by_cases h : name.length = 8 ∧ name.all is_hex_digit
  · rw [if_pos h, if_pos h]
    obtain ⟨hlen, -⟩ := h
    congr 1
    rcases name with - | ⟨c0, name⟩
    · simp at hlen
    rcases name with - | ⟨c1, name⟩
    · simp at hlen
    rcases name with - | ⟨c2, name⟩
    · simp at hlen
    rcases name with - | ⟨c3, name⟩
    · simp at hlen
    rcases name with - | ⟨c4, name⟩
    · simp at hlen
    rcases name with - | ⟨c5, name⟩
    · simp at hlen
    rcases name with - | ⟨c6, name⟩
    · simp at hlen
    rcases name with - | ⟨c7, name⟩
    · simp at hlen
    rcases name with - | ⟨c8, name⟩
    · simp [hex_decode_bytes, u32_from_be_bytes, hex_string_val]
      ring
    · simp at hlen
  · rw [if_neg h, if_neg h]
    congr 1
    simp [clean_path, spec_normalize, List.map_map, Function.comp_def]

/-- Claim C10 counterexample: the create paths draw each entry's IV from the
thread RNG with no distinctness check, so with an RNG whose draws repeat
(which nothing in the code rules out) an archive of two entries receives two
identical IVs — the claim that two entries are never given identical IVs
does not hold by construction. -/
theorem iv_collision_possible_cex :
    create_entry_ivs (fun _ => [0, 0, 0, 0, 0, 0, 0, 0]) 2
      = [[0, 0, 0, 0, 0, 0, 0, 0], [0, 0, 0, 0, 0, 0, 0, 0]]
    ∧ ¬ (create_entry_ivs (fun _ => [0, 0, 0, 0, 0, 0, 0, 0]) 2).Nodup := by
  exact ⟨rfl, by decide⟩

/-- Claim C10 amended: every entry receives its own freshly generated 8-byte
IV — the i-th entry consumes its own draw from the RNG stream, one draw per
entry — and the IVs of an archive are pairwise distinct exactly when the RNG
never repeats a value across the draws consumed; the code relies on the
statistical improbability of a 64-bit collision rather than enforcing
distinctness. -/
theorem ivs_fresh_per_entry (rng_draw : Nat → List Nat) (entry_count : Nat)
    (hinj : ∀ i j, i < entry_count → j < entry_count →
      rng_draw i = rng_draw j → i = j) :
    (create_entry_ivs rng_draw entry_count).length = entry_count
    ∧ (create_entry_ivs rng_draw entry_count).Nodup := by
  constructor
  · simp [create_entry_ivs]
  · exact (List.nodup_range entry_count).map_on
      (fun i hi j hj hij =>
        hinj i j (List.mem_range.mp hi) (List.mem_range.mp hj) hij)

/-- Witness for the amended C10: an injective RNG stream gives two entries
two distinct IVs. -/
theorem ivs_fresh_per_entry_witness :
    (create_entry_ivs (fun i => [i, 0, 0, 0, 0, 0, 0, 0]) 2).length = 2
    ∧ (create_entry_ivs (fun i => [i, 0, 0, 0, 0, 0, 0, 0]) 2).Nodup :=
  ivs_fresh_per_entry (fun i => [i, 0, 0, 0, 0, 0, 0, 0]) 2
    (by
      intro i j hi hj h
      simp at h
      exact h)

/-- Folding `add_compressed_entry` over a list of pre-encoded entries appends
them all, in list order, to the builder's entry list. -/
theorem foldl_add_compressed_entry (l : List BuilderEntry) :
    ∀ acc : List BuilderEntry, l.foldl add_compressed_entry acc = acc ++ l := by
  induction l with
  | nil => intro acc; simp
  | cons e rest ih =>
    intro acc
    rw [List.foldl_cons, ih (add_compressed_entry acc e)]
    simp [add_compressed_entry]

/-- The create pipeline's builder entry list is exactly the encoded sorted
file list. -/
theorem create_builder_entries_eq (encode : SrcFile → BuilderEntry)
    (files : List SrcFile) :
    create_builder_entries encode files = (sort_files_by_hash files).map encode := by
  unfold create_builder_entries
  rw [foldl_add_compressed_entry]
  simp

/-- Claim C1: the create operation sorts the collected files ascending by the
signed 32-bit `name_hash` before adding them to the builder, so the builder
receives the entries in ascending signed-hash order — strictly ascending
whenever the collected hashes are pairwise distinct. -/
theorem create_orders_entries_by_signed_hash (encode : SrcFile → BuilderEntry)
    (files : List SrcFile)
    (henc : ∀ f, (encode f).name_hash = f.name_hash) :
    (create_builder_entries encode files).map BuilderEntry.name_hash
        = (sort_files_by_hash files).map SrcFile.name_hash
    ∧ List.Sorted (fun a b => a ≤ b)
        ((create_builder_entries encode files).map BuilderEntry.name_hash)
    ∧ ((files.map SrcFile.name_hash).Nodup →
        List.Sorted (fun a b => a < b)
          ((create_builder_entries encode files).map BuilderEntry.name_hash)) := by
  haveI hto : IsTotal SrcFile (fun a b => a.name_hash ≤ b.name_hash) :=
    ⟨fun a b => le_total a.name_hash b.name_hash⟩
  haveI htr : IsTrans SrcFile (fun a b => a.name_hash ≤ b.name_hash) :=
    ⟨fun a b c hab hbc => le_trans hab hbc⟩
  have hmap : (create_builder_entries encode files).map BuilderEntry.name_hash
      = (sort_files_by_hash files).map SrcFile.name_hash := by
    rw [create_builder_entries_eq, List.map_map]
    exact List.map_congr_left (fun f _ => henc f)
  have hsorted : List.Sorted (fun a b => a.name_hash ≤ b.name_hash)
      (sort_files_by_hash files) :=
    List.sorted_insertionSort (fun a b => a.name_hash ≤ b.name_hash) files
  have hle : List.Sorted (fun a b => a ≤ b)
      ((sort_files_by_hash files).map SrcFile.name_hash) :=
    hsorted.map SrcFile.name_hash (fun a b hab => hab)
  refine ⟨hmap, by rw [hmap]; exact hle, ?_⟩
  intro hnd
  rw [hmap]
  have hperm : ((sort_files_by_hash files).map SrcFile.name_hash).Perm
      (files.map SrcFile.name_hash) := by
    unfold sort_files_by_hash
    exact (List.perm_insertionSort (fun a b => a.name_hash ≤ b.name_hash) files).map
      SrcFile.name_hash
  have hnd2 : ((sort_files_by_hash files).map SrcFile.name_hash).Nodup :=
    hperm.nodup_iff.mpr hnd
  exact (hle.and hnd2).imp (fun hab => lt_of_le_of_ne hab.1 hab.2)

/-- Witness for C1: the hash sequence [5, -3, 0, -100, 42] is written in the
strictly ascending signed order [-100, -3, 0, 5, 42]. -/
theorem create_orders_entries_by_signed_hash_witness :
    (create_builder_entries
        (fun f => BuilderEntry.mk f.name_hash [] 0 [])
        [SrcFile.mk "a" 5, SrcFile.mk "b" (-3), SrcFile.mk "c" 0,
          SrcFile.mk "d" (-100), SrcFile.mk "e" 42]).map BuilderEntry.name_hash
      = [-100, -3, 0, 5, 42]
    ∧ List.Sorted (fun a b => a < b)
        ((create_builder_entries
          (fun f => BuilderEntry.mk f.name_hash [] 0 [])
          [SrcFile.mk "a" 5, SrcFile.mk "b" (-3), SrcFile.mk "c" 0,
            SrcFile.mk "d" (-100), SrcFile.mk "e" 42]).map BuilderEntry.name_hash) := by
  constructor
  · decide
  · exact (create_orders_entries_by_signed_hash
      (fun f => BuilderEntry.mk f.name_hash [] 0 [])
      [SrcFile.mk "a" 5, SrcFile.mk "b" (-3), SrcFile.mk "c" 0,
        SrcFile.mk "d" (-100), SrcFile.mk "e" 42]
      (fun f => rfl)).2.2 (by decide)

/-- Assembling the indexed results of parallel workers by index yields the
sequential map, for every completion order that runs each task. -/
theorem par_map_collect_eq {α β : Type} (f : α → β) (xs : List α)
    (order : List Nat) (h : order.Perm (List.range xs.length)) :
    par_map_collect f xs order = (xs.map f).map Option.some := by
  unfold par_map_collect
  apply List.ext_getElem
  · simp
  · intro i hi1 hi2
    have hi : i < xs.length := by simpa using hi1
    rw [List.getElem_map, List.getElem_map, List.getElem_map, List.getElem_range]
    have hmem : i ∈ order := h.mem_iff.mpr (List.mem_range.mpr hi)
    have hpair : (i, f xs[i]) ∈
        order.filterMap (fun j => (xs[j]?).map (fun a => (j, f a))) := by
      refine List.mem_filterMap.mpr ⟨i, hmem, ?_⟩
      rw [List.getElem?_eq_getElem hi]
      rfl
    have hsome : (List.find? (fun p => p.1 == i)
        (order.filterMap (fun j => (xs[j]?).map (fun a => (j, f a))))).isSome = true :=
      List.find?_isSome.mpr ⟨(i, f xs[i]), hpair, by simp⟩
    obtain ⟨p, hp⟩ := Option.isSome_iff_exists.mp hsome
    have hp1 : p.1 = i := by
      have := List.find?_some hp
      simpa using this
    have hpmem : p ∈ order.filterMap (fun j => (xs[j]?).map (fun a => (j, f a))) :=
      List.mem_of_find?_eq_some hp
    obtain ⟨j, hj, hjp⟩ := List.mem_filterMap.mp hpmem
    cases hxj : xs[j]? with
    | none => rw [hxj] at hjp; simp at hjp
    | some a =>
      rw [hxj] at hjp
      simp at hjp
      cases hjp
      have hji : j = i := hp1
      subst hji
      rw [List.getElem?_eq_getElem hi] at hxj
      cases hxj
      rw [hp]
      rfl

/-- Claim C4: for the same sorted input files, file contents and per-file IV
choices (all folded into the fixed `encode` function), the rayon encode path
— parallel workers completing in any order, results collected by index, then
inserted serially — produces the same builder entry list as the serial
encode path, so the built archive is identical and deterministic regardless
of how parallel encoding completed. -/
theorem parallel_create_matches_serial (encode : SrcFile → BuilderEntry)
    (files : List SrcFile) (order : List Nat)
    (hperm : order.Perm (List.range files.length)) :
    create_builder_entries_par encode files order
      = create_builder_entries encode files := by
  have hlen : (sort_files_by_hash files).length = files.length := by
    unfold sort_files_by_hash
    exact (List.perm_insertionSort (fun a b => a.name_hash ≤ b.name_hash) files).length_eq
  unfold create_builder_entries_par
  rw [create_builder_entries_eq]
  rw [par_map_collect_eq encode (sort_files_by_hash files) order (by rw [hlen]; exact hperm)]
  rw [List.filterMap_map]
  have hid : (id ∘ Option.some : BuilderEntry → Option BuilderEntry) = Option.some := rfl
  rw [hid, List.filterMap_some, foldl_add_compressed_entry]
  exact List.nil_append _

/-- Witness for C4: with two files and the workers completing in reversed
order, the parallel pipeline builds the same entry list as the serial one. -/
theorem parallel_create_matches_serial_witness :
    create_builder_entries_par (fun f => BuilderEntry.mk f.name_hash [] 0 [])
        [SrcFile.mk "x" 3, SrcFile.mk "y" 1] [1, 0]
      = create_builder_entries (fun f => BuilderEntry.mk f.name_hash [] 0 [])
        [SrcFile.mk "x" 3, SrcFile.mk "y" 1] :=
  parallel_create_matches_serial (fun f => BuilderEntry.mk f.name_hash [] 0 [])
    [SrcFile.mk "x" 3, SrcFile.mk "y" 1] [1, 0] (by decide)

/-- On fully successful decoding the BAR extraction loop produces every
entry's payload in table order. -/
theorem bar_extract_entries_all_ok (ed : Int → Except String (List Nat))
    (pay : Int → List Nat) :
    ∀ hs : List Int, (∀ h ∈ hs, ed h = Except.ok (pay h)) →
      bar_extract_entries ed hs = Except.ok (hs.map (fun h => (h, pay h)))
  | [] => fun _ => rfl
  | h :: rest => fun hall => by
    have hh : ed h = Except.ok (pay h) := hall h (List.mem_cons_self h rest)
    have ih := bar_extract_entries_all_ok ed pay rest
      (fun x hx => hall x (List.mem_cons_of_mem h hx))
    simp [bar_extract_entries, hh, ih]

/-- On fully successful decoding the SHARC extraction loop produces every
entry's payload in table order. -/
theorem sharc_extract_entries_all_ok (ed : Int → Except String (List Nat))
    (pay : Int → List Nat) :
    ∀ hs : List Int, (∀ h ∈ hs, ed h = Except.ok (pay h)) →
      sharc_extract_entries ed hs = Outcome.ok (hs.map (fun h => (h, pay h)))
  | [] => fun _ => rfl
  | h :: rest => fun hall => by
    have hh : ed h = Except.ok (pay h) := hall h (List.mem_cons_self h rest)
    have ih := sharc_extract_entries_all_ok ed pay rest
      (fun x hx => hall x (List.mem_cons_of_mem h hx))
    simp [sharc_extract_entries, hh, ih]

/-- The BAR extraction loop succeeds exactly when every entry's decode
succeeds: a single failing entry aborts the whole loop with an error. -/
theorem bar_extract_entries_isOk_iff (ed : Int → Except String (List Nat))
    (hs : List Int) :
    (bar_extract_entries ed hs).isOk = true ↔ ∀ h ∈ hs, (ed h).isOk = true := by
  induction hs with
  | nil => simp [bar_extract_entries, Except.isOk, Except.toBool]
  | cons h rest ih =>
    cases hh : ed h with
    | error e =>
      have hl : bar_extract_entries ed (h :: rest)
          = Except.error ("failed to read entry data: " ++ e) := by
        simp [bar_extract_entries, hh]
      rw [hl]
      constructor
      · intro hfalse
        simp [Except.isOk, Except.toBool] at hfalse
      · intro hall
        have hcon := hall h (List.mem_cons_self h rest)
        rw [hh] at hcon
        simp [Except.isOk, Except.toBool] at hcon
    | ok d =>
      cases hrec : bar_extract_entries ed rest with
      | error e2 =>
        have hl : bar_extract_entries ed (h :: rest) = Except.error e2 := by
          simp [bar_extract_entries, hh, hrec]
        rw [hl]
        rw [hrec] at ih
        constructor
        · intro hfalse
          simp [Except.isOk, Except.toBool] at hfalse
        · intro hall
          have h2 := ih.mpr (fun x hx => hall x (List.mem_cons_of_mem h hx))
          simp [Except.isOk, Except.toBool] at h2
      | ok l =>
        have hl : bar_extract_entries ed (h :: rest) = Except.ok ((h, d) :: l) := by
          simp [bar_extract_entries, hh, hrec]
        rw [hl]
        rw [hrec] at ih
        constructor
        · intro hdummy x hx
          rcases List.mem_cons.mp hx with hx1 | hx2
          · rw [hx1, hh]; rfl
          · exact ih.mp rfl x hx2
        · intro hdummy; rfl

/-- The SHARC extraction loop never yields a returned error value: it either
succeeds or aborts by panic. -/
theorem sharc_extract_entries_no_error (ed : Int → Except String (List Nat))
    (hs : List Int) :
    Outcome.is_error (sharc_extract_entries ed hs) = false := by
  induction hs with
  | nil => rfl
  | cons h rest ih =>
    cases hh : ed h with
    | error e => simp [sharc_extract_entries, hh, Outcome.is_error]
    | ok d =>
      cases hrec : sharc_extract_entries ed rest with
      | ok l => simp [sharc_extract_entries, hh, hrec, Outcome.is_error]
      | error m =>
        rw [hrec] at ih
        simp [Outcome.is_error] at ih
      | panicked m => simp [sharc_extract_entries, hh, hrec, Outcome.is_error]

/-- Claim C7 counterexample: when decoding of the single entry with
`name_hash` 42 fails, SHARC bulk extraction aborts by Rust panic, not by
returning an error value, and the BAR error message is the codec message
under a fixed prefix, naming no entry hash — against the claim that the
whole extraction aborts as an error identifying the entry by its hash. -/
theorem extract_entry_failure_divergence_cex :
    sharc_extract_entries (fun _ => Except.error "codec failure") [42]
      = Outcome.panicked "Failed to process entry: codec failure"
    ∧ Outcome.is_error
        (sharc_extract_entries (fun _ => Except.error "codec failure") [42]) = false
    ∧ bar_extract_entries (fun _ => Except.error "codec failure") [42]
      = Except.error "failed to read entry data: codec failure" :=
  ⟨rfl, rfl, rfl⟩

/-- Claim C7 amended: a decode failure on any single entry aborts the whole
bulk extraction and no entry is silently skipped — the loop succeeds exactly
when every entry decodes — but BAR extraction aborts with an error that
wraps only the codec message (it does not add the entry's `name_hash`), and
SHARC extraction aborts by panic and never by a returned error value. -/
theorem extract_aborts_on_entry_failure (ed : Int → Except String (List Nat))
    (pay : Int → List Nat) (hs : List Int) :
    ((∀ h ∈ hs, ed h = Except.ok (pay h)) →
        bar_extract_entries ed hs = Except.ok (hs.map (fun h => (h, pay h)))
        ∧ sharc_extract_entries ed hs = Outcome.ok (hs.map (fun h => (h, pay h))))
    ∧ ((bar_extract_entries ed hs).isOk = true ↔ ∀ h ∈ hs, (ed h).isOk = true)
    ∧ Outcome.is_error (sharc_extract_entries ed hs) = false
    ∧ (∀ h rest e, ed h = Except.error e →
        bar_extract_entries ed (h :: rest)
            = Except.error ("failed to read entry data: " ++ e)
        ∧ sharc_extract_entries ed (h :: rest)
            = Outcome.panicked ("Failed to process entry: " ++ e)) := by
  refine ⟨?_, bar_extract_entries_isOk_iff ed hs,
    sharc_extract_entries_no_error ed hs, ?_⟩
  · intro hall
    exact ⟨bar_extract_entries_all_ok ed pay hs hall,
      sharc_extract_entries_all_ok ed pay hs hall⟩
  · intro h rest e he
    constructor
    · simp [bar_extract_entries, he]
    · simp [sharc_extract_entries, he]

/-- Witness for the amended C7: two entries that both decode are both
extracted, in order. -/
theorem extract_aborts_on_entry_failure_witness :
    bar_extract_entries (fun _ => Except.ok [1]) [7, 8]
        = Except.ok [(7, [1]), (8, [1])]
    ∧ sharc_extract_entries (fun _ => Except.ok [1]) [7, 8]
        = Outcome.ok [(7, [1]), (8, [1])] :=
  (extract_aborts_on_entry_failure (fun _ => Except.ok [1]) (fun _ => [1])
    [7, 8]).1 (fun _ _ => rfl)

/-- Claim C8 counterexample: a decrypted payload whose magic matches neither
pattern makes `Sdat::extract` panic during byte-order resolution before any
parse is attempted — here both format parsers would succeed, yet neither is
tried and the unsupported-archive error is never produced. -/
theorem sdat_bad_magic_skips_both_formats_cex :
    sdat_extract_archive (fun _ : Endianness => (Except.ok 0 : Except String Nat))
      (fun _ : Endianness => (Except.ok 0 : Except String Nat)) [1, 2, 3, 4]
      = Outcome.panicked "Invalid magic value" := rfl

/-- Claim C8 amended: for every decrypted payload whose first four bytes
form a recognized magic, extraction first attempts the SHARC parse with the
resolved byte order, attempts the BAR parse only if SHARC fails, and returns
the unsupported-archive error exactly when both fail; a payload with an
unrecognized magic instead panics before attempting either format. -/
theorem sdat_tries_sharc_then_bar {α β : Type}
    (parse_sharc : Endianness → Except String α)
    (parse_bar : Endianness → Except String β)
    (payload : List Nat) (e : Endianness)
    (hm : magic_to_endianess (payload.take 4) = MagicResult.resolved e) :
    (∀ a, parse_sharc e = Except.ok a →
        sdat_extract_archive parse_sharc parse_bar payload
          = Outcome.ok (ParsedAs.sharc a))
    ∧ (∀ msg b, parse_sharc e = Except.error msg → parse_bar e = Except.ok b →
        sdat_extract_archive parse_sharc parse_bar payload
          = Outcome.ok (ParsedAs.bar b))
    ∧ (∀ msg1 msg2, parse_sharc e = Except.error msg1 →
        parse_bar e = Except.error msg2 →
        sdat_extract_archive parse_sharc parse_bar payload
          = Outcome.error "file does not contain a supported SHARC or BAR archive") := by
  have hpat : payload.take 4 = [0xE1, 0x17, 0xEF, 0xAD]
      ∨ payload.take 4 = [0xAD, 0xEF, 0x17, 0xE1] := by
    unfold magic_to_endianess at hm
    split_ifs at hm with hA hB
    · exact Or.inl hA
    · exact Or.inr hB
  have hlen : ¬ payload.length < 4 := by
    rcases hpat with hp | hp <;>
    · have hl := congrArg List.length hp
      simp [List.length_take] at hl
      omega
  refine ⟨?_, ?_, ?_⟩
  · intro a ha
    simp [sdat_extract_archive, hlen, hm, ha]
  · intro msg b hs hb
    simp [sdat_extract_archive, hlen, hm, hs, hb]
  · intro msg1 msg2 hs hb
    simp [sdat_extract_archive, hlen, hm, hs, hb]

/-- Witness for the amended C8: on a big-endian magic with a payload the
SHARC parser rejects and the BAR parser accepts, extraction returns the BAR
result. -/
theorem sdat_tries_sharc_then_bar_witness :
    sdat_extract_archive
      (fun _ : Endianness => (Except.error "not sharc" : Except String Nat))
      (fun _ : Endianness => (Except.ok 9 : Except String Nat))
      [0xAD, 0xEF, 0x17, 0xE1]
      = Outcome.ok (ParsedAs.bar 9) :=
  (sdat_tries_sharc_then_bar
    (fun _ : Endianness => (Except.error "not sharc" : Except String Nat))
    (fun _ : Endianness => (Except.ok 9 : Except String Nat))
    [0xAD, 0xEF, 0x17, 0xE1] Endianness.big rfl).2.1 "not sharc" 9 rfl rfl

end Hdk
